import Mathlib

set_option maxRecDepth 8000

namespace Squad

/-- Interleaving helper used to model Python `str.replace` with an empty
pattern: Python inserts the replacement before every character and once at
the very end, so `"ab".replace("", "-") == "-a-b-"`. -/
def interAfter (new : List Char) : List Char → List Char
  | [] => []
  | c :: rest => c :: (new ++ interAfter new rest)

/-- Fuel-driven scan modelling Python `str.replace` for a non-empty pattern:
replace non-overlapping occurrences left to right, never rescanning the
replacement text.  The fuel is always instantiated with the length of the
string, which suffices because every step consumes at least one character. -/
def replaceFuel : Nat → List Char → List Char → List Char → List Char
  | 0, s, _, _ => s
  | _ + 1, [], _, _ => []
  | fuel + 1, c :: rest, old, new =>
    if old ≠ [] ∧ old <+: (c :: rest) then
      new ++ replaceFuel fuel (List.drop old.length (c :: rest)) old new
    else
      c :: replaceFuel fuel rest old new

/-- Python `s.replace(old, new)` on strings seen as lists of characters,
including the empty-pattern behaviour of CPython. -/
def pyReplace (s old new : List Char) : List Char :=
  if old = [] then new ++ interAfter new s else replaceFuel s.length s old new

/-- Python `s.index(sub)`: position of the first occurrence of `sub` in `s`,
or `none` where CPython raises `ValueError`. -/
def strIndex : List Char → List Char → Option Nat
  | [], sub => if sub <+: ([] : List Char) then some 0 else none
  | c :: rest, sub =>
    if sub <+: (c :: rest) then some 0
    else (strIndex rest sub).map (fun n => n + 1)

/-- Editing an answer, from agents.py lines 242-243 and 305-306:
`answer.replace('.', '').replace('?', '').replace('!', '')`. -/
def editAnswer (a : List Char) : List Char :=
  pyReplace (pyReplace (pyReplace a ['.'] []) ['?'] []) ['!'] []

/-- An answer with none of the three punctuation characters the aligner
strips; for such answers editing is the identity. -/
def noPunct (a : List Char) : Prop :=
  '.' ∉ a ∧ '?' ∉ a ∧ '!' ∉ a

instance (a : List Char) : Decidable (noPunct a) := by
  unfold noPunct; infer_instance

/-- The edit loop of agents.py lines 240-245 / 303-308: walk the answers in
order, replace each answer by its edited form in the running context, and
collect the edited answers.  Returns the final (edited) context together
with the list of edited answers. -/
def editLoop : List Char → List (List Char) → List Char × List (List Char)
  | ctx, [] => (ctx, [])
  | ctx, a :: rest =>
    let na := editAnswer a
    let res := editLoop (pyReplace ctx a na) rest
    (res.1, na :: res.2)

/-- Context after the answer-editing loop. -/
def editedContext (ctx : List Char) (answers : List (List Char)) : List Char :=
  (editLoop ctx answers).1

/-- The `edited_answers` list produced by the answer-editing loop. -/
def editedAnswers (ctx : List Char) (answers : List (List Char)) : List (List Char) :=
  (editLoop ctx answers).2

/-- The restore loop of agents.py lines 256-258 / 318-319: for each pair of
an edited answer and its original, substitute the edited answer back. -/
def restoreLoop : List Char → List (List Char × List Char) → List Char
  | ctx, [] => ctx
  | ctx, p :: rest => restoreLoop (pyReplace ctx p.1 p.2) rest

/-- The context obtained by editing and then restoring, i.e. the value bound
to `context` at agents.py line 258 / 319. -/
def restoredContext (ctx : List Char) (answers : List (List Char)) : List Char :=
  restoreLoop (editedContext ctx answers) ((editedAnswers ctx answers).zip answers)

/-- Inner loop of agents.py lines 250-254 / 313-316: one tokenized sentence
is progressively restored answer by answer, and every intermediate version
is appended to the `sentences` list. -/
def sentVariants : List Char → List (List Char × List Char) → List (List Char)
  | _, [] => []
  | s, p :: rest =>
    let s2 := pyReplace s p.1 p.2
    s2 :: sentVariants s2 rest

/-- Outer loop of agents.py lines 250-254 / 313-316 over the tokenized
sentences. -/
def variantsJoin (prs : List (List Char × List Char)) : List (List Char) → List (List Char)
  | [] => []
  | s :: rest => sentVariants s prs ++ variantsJoin prs rest

/-- The full `sentences` list built by the aligner, given the tokenizer as a
function from the edited context to its list of sentences. -/
def alignVariants (ctx : List Char) (answers : List (List Char))
    (tok : List Char → List (List Char)) : List (List Char) :=
  variantsJoin ((editedAnswers ctx answers).zip answers) (tok (editedContext ctx answers))

/-- Label-selection loop of SentenceTeacher.setup_data, agents.py lines
260-265: keep a sentence when some answer occurs in it and it has not been
kept already. -/
def labelsLoop (answers : List (List Char)) : List (List Char) → List (List Char) → List (List Char)
  | acc, [] => acc
  | acc, s :: rest =>
    if (∃ a ∈ answers, a <:+: s) ∧ s ∉ acc then labelsLoop answers (acc ++ [s]) rest
    else labelsLoop answers acc rest

/-- Labels emitted by SentenceTeacher.setup_data for one question. -/
def alignLabels (ctx : List Char) (answers : List (List Char))
    (tok : List Char → List (List Char)) : List (List Char) :=
  labelsLoop answers [] (alignVariants ctx answers tok)

/-- Label-selection loop of SentenceIndexTeacher.get, agents.py lines
321-328: like `labelsLoop` but each kept sentence is paired with
`context.index(sentence)`, and the whole call dies with `ValueError`
(modelled as `none`) when the sentence does not occur in the context. -/
def labelsLoopIdx (answers : List (List Char)) (ctx : List Char) :
    List (List Char × Nat) → List (List Char) → Option (List (List Char × Nat))
  | acc, [] => some acc
  | acc, s :: rest =>
    if (∃ a ∈ answers, a <:+: s) ∧ s ∉ acc.map Prod.fst then
      match strIndex ctx s with
      | none => none
      | some k => labelsLoopIdx answers ctx (acc ++ [(s, k)]) rest
    else labelsLoopIdx answers ctx acc rest

/-- Labels with start offsets emitted by SentenceIndexTeacher.get for one
question; `none` models the uncaught `ValueError` from `context.index`. -/
def alignIdx (ctx : List Char) (answers : List (List Char))
    (tok : List Char → List (List Char)) : Option (List (List Char × Nat)) :=
  labelsLoopIdx answers (restoredContext ctx answers) [] (alignVariants ctx answers tok)

/-- One question/answer set of the SQuAD JSON: the question text and the
(answer text, answer_start) pairs. -/
structure QA where
  question : List Char
  answers : List (List Char × Nat)
  deriving DecidableEq

/-- One paragraph of the SQuAD JSON: the context and its question sets. -/
structure Paragraph where
  context : List Char
  qas : List QA
  deriving DecidableEq

/-- One article of the SQuAD JSON: title and paragraphs. -/
structure Article where
  title : List Char
  paragraphs : List Paragraph
  deriving DecidableEq

/-- The dialog action dictionary emitted by the index teachers (agents.py
lines 62-68 and 330-336), minus the constant `id` field. -/
structure SquadAction where
  text : List Char
  labels : List (List Char)
  episode_done : Bool
  answer_starts : List Nat
  deriving DecidableEq

/-- State held by IndexTeacher after `_setup_data`: the loaded `data` list
and the flat `examples` index list. -/
structure TeacherState where
  squad : List Article
  examples : List (Nat × Nat × Nat)
  deriving DecidableEq

/-- Innermost loop of IndexTeacher._setup_data, agents.py lines 81-82. -/
def qaExamples (ai pi n : Nat) : List (Nat × Nat × Nat) :=
  (List.range n).map (fun qi => (ai, pi, qi))

/-- Paragraph loop of IndexTeacher._setup_data, agents.py lines 78-82. -/
def examplesOfParas (ai : Nat) : Nat → List Paragraph → List (Nat × Nat × Nat)
  | _, [] => []
  | pi, p :: rest => qaExamples ai pi p.qas.length ++ examplesOfParas ai (pi + 1) rest

/-- Article loop of IndexTeacher._setup_data, agents.py lines 76-82. -/
def examplesOfArticles : Nat → List Article → List (Nat × Nat × Nat)
  | _, [] => []
  | ai, art :: rest => examplesOfParas ai 0 art.paragraphs ++ examplesOfArticles (ai + 1) rest

/-- The `examples` list built by IndexTeacher._setup_data. -/
def setupExamples (squad : List Article) : List (Nat × Nat × Nat) :=
  examplesOfArticles 0 squad

/-- Strict article-major, paragraph-minor, question-last order on the flat
example index triples. -/
def lexLt (x y : Nat × Nat × Nat) : Prop :=
  x.1 < y.1 ∨ (x.1 = y.1 ∧ (x.2.1 < y.2.1 ∨ (x.2.1 = y.2.1 ∧ x.2.2 < y.2.2)))

/-- Number of questions in a list of paragraphs. -/
def paraQuestions : List Paragraph → Nat
  | [] => 0
  | p :: ps => p.qas.length + paraQuestions ps

/-- Number of questions in the whole loaded dataset. -/
def totalQuestions : List Article → Nat
  | [] => 0
  | art :: rest => paraQuestions art.paragraphs + totalQuestions rest

/-- Paragraph-level traversal shared by the DialogTeacher variants. -/
def paraFlatten {α : Type} (f : Article → Paragraph → QA → α) (art : Article) :
    List Paragraph → List α
  | [] => []
  | p :: ps => p.qas.map (f art p) ++ paraFlatten f art ps

/-- The article→paragraph→qa traversal of the `setup_data` generators:
one record per question, in source order. -/
def squadFlatten {α : Type} (f : Article → Paragraph → QA → α) : List Article → List α
  | [] => []
  | art :: rest => paraFlatten f art art.paragraphs ++ squadFlatten f rest

/-- Records yielded by DefaultTeacher.setup_data, agents.py lines 108-116:
`(context + '\n' + question, answers)`. -/
def defaultSetupData (squad : List Article) : List (List Char × List (List Char)) :=
  squadFlatten (fun _ p qa => (p.context ++ '\n' :: qa.question, qa.answers.map Prod.fst)) squad

/-- Records yielded by OpenSquadTeacher.setup_data, agents.py lines 142-149:
the question alone, no context. -/
def openSetupData (squad : List Article) : List (List Char × List (List Char)) :=
  squadFlatten (fun _ _ qa => (qa.question, qa.answers.map Prod.fst)) squad

/-- Records yielded by TitleTeacher.setup_data, agents.py lines 172-184:
`'\n'.join([title, context, question])`. -/
def titleSetupData (squad : List Article) : List (List Char × List (List Char)) :=
  squadFlatten
    (fun art p qa =>
      (art.title ++ '\n' :: (p.context ++ '\n' :: qa.question),
       qa.answers.map Prod.fst)) squad

/-- IndexTeacher.get, agents.py lines 49-69: look the example up by flat
index and build the action; `none` models the IndexError paths Python would
raise on an out-of-range index. -/
def indexGet (st : TeacherState) (i : Nat) : Option SquadAction :=
  match st.examples[i]? with
  | none => none
  | some (ai, pi, qi) =>
    match st.squad[ai]? with
    | none => none
    | some art =>
      match art.paragraphs[pi]? with
      | none => none
      | some p =>
        match p.qas[qi]? with
        | none => none
        | some qa =>
          some { text := p.context ++ '\n' :: qa.question,
                 labels := qa.answers.map Prod.fst,
                 episode_done := true,
                 answer_starts := qa.answers.map Prod.snd }

/-- SentenceIndexTeacher.get, agents.py lines 291-337: run the aligner on
the question's paragraph and build the action from the label/offset pairs;
`none` models either an out-of-range index or the uncaught `ValueError`
from `context.index`. -/
def sentenceIndexGet (st : TeacherState) (tok : List Char → List (List Char)) (i : Nat) :
    Option SquadAction :=
  match st.examples[i]? with
  | none => none
  | some (ai, pi, qi) =>
    match st.squad[ai]? with
    | none => none
    | some art =>
      match art.paragraphs[pi]? with
      | none => none
      | some p =>
        match p.qas[qi]? with
        | none => none
        | some qa =>
          match alignIdx p.context (qa.answers.map Prod.fst) tok with
          | none => none
          | some ps =>
            some { text := restoredContext p.context (qa.answers.map Prod.fst)
                     ++ '\n' :: qa.question,
                   labels := ps.map Prod.fst,
                   episode_done := true,
                   answer_starts := ps.map Prod.snd }

/-- State-passing form of SentenceIndexTeacher.get: the method reads
`self.examples` and `self.squad` and rebinds only local variables (Python
strings are immutable and `str.replace` returns a fresh string), so the
state it leaves behind is the state it was given. -/
def sentenceIndexGetS (st : TeacherState) (tok : List Char → List (List Char)) (i : Nat) :
    Option SquadAction × TeacherState :=
  (sentenceIndexGet st tok i, st)

/-- A trivial sentence tokenizer used as a concrete tokenizer capability in
the concrete evaluations: the whole text is one sentence. -/
def tokOne : List Char → List (List Char) := fun s => [s]

/-- Concrete question with a punctuation-free answer. -/
def demoQA : QA := { question := "q".toList, answers := [("ab".toList, 0)] }

/-- Concrete paragraph holding `demoQA`. -/
def demoPara : Paragraph := { context := "ab cd".toList, qas := [demoQA] }

/-- Concrete article holding `demoPara`. -/
def demoArticle : Article := { title := "t".toList, paragraphs := [demoPara] }

/-- Concrete loaded teacher state over `demoArticle`. -/
def demoState : TeacherState :=
  { squad := [demoArticle], examples := setupExamples [demoArticle] }

/-- The action IndexTeacher.get builds for `demoState` at flat index 0. -/
def demoIndexAct : SquadAction :=
  { text := "ab cd".toList ++ '\n' :: "q".toList,
    labels := ["ab".toList],
    episode_done := true,
    answer_starts := [0] }

/-- Concrete question whose answer "a.b" contains a period. -/
def demoQAPunct : QA := { question := "q1".toList, answers := [("a.b".toList, 0)] }

/-- Concrete paragraph whose context "ab a.b" also contains the edited form
"ab" of the answer "a.b" at an unrelated place. -/
def demoParaPunct : Paragraph := { context := "ab a.b".toList, qas := [demoQAPunct] }

/-- Concrete article holding `demoParaPunct`. -/
def demoArticlePunct : Article := { title := "t1".toList, paragraphs := [demoParaPunct] }

/-- Concrete loaded teacher state over `demoArticlePunct`. -/
def demoStatePunct : TeacherState :=
  { squad := [demoArticlePunct], examples := setupExamples [demoArticlePunct] }

/-- Concrete article with two paragraphs of one question each. -/
def demoArtA : Article :=
  { title := "A".toList,
    paragraphs :=
      [ { context := "c1".toList, qas := [{ question := "q1".toList, answers := [] }] },
        { context := "c2".toList, qas := [{ question := "q2".toList, answers := [] }] } ] }

/-- Second concrete article with two paragraphs of one question each. -/
def demoArtB : Article :=
  { title := "B".toList,
    paragraphs :=
      [ { context := "c3".toList, qas := [{ question := "q3".toList, answers := [] }] },
        { context := "c4".toList, qas := [{ question := "q4".toList, answers := [] }] } ] }

theorem interAfter_nil : ∀ s : List Char, interAfter [] s = s
  | [] => rfl
  | c :: rest => by simp [interAfter, interAfter_nil rest]

theorem replaceFuel_self : ∀ (fuel : Nat) (s a : List Char), a ≠ [] → s.length ≤ fuel →
    replaceFuel fuel s a a = s := by
  intro fuel
  induction fuel with
  | zero => intro s a _ _; rfl
  | succ n ih =>
    intro s a ha hlen
    cases s with
    | nil => rfl
    | cons c rest =>
      by_cases h : a ≠ [] ∧ a <+: (c :: rest)
      · rw [replaceFuel, if_pos h]
        obtain ⟨t, ht⟩ := h.2
        have hdrop : List.drop a.length (c :: rest) = t := by
          rw [← ht]; exact List.drop_left a t
        have hlena : 0 < a.length := List.length_pos.mpr ha
        have hlent : a.length + t.length = rest.length + 1 := by
          have h2 := congrArg List.length ht
          simpa [List.length_append] using h2
        have hle : t.length ≤ n := by
          simp only [List.length_cons] at hlen
          omega
        rw [hdrop, ih t a ha hle, ht]
      · rw [replaceFuel, if_neg h]
        have hle : rest.length ≤ n := by
          simp only [List.length_cons] at hlen
          omega
        rw [ih rest a ha hle]

theorem pyReplace_self (s a : List Char) : pyReplace s a a = s := by
  by_cases h : a = []
  · subst h
    simp [pyReplace, interAfter_nil]
  · rw [pyReplace, if_neg h]
    exact replaceFuel_self s.length s a h le_rfl

theorem replaceFuel_single_not_mem :
    ∀ (fuel : Nat) (s : List Char) (c : Char) (new : List Char),
      c ∉ s → replaceFuel fuel s [c] new = s := by
  intro fuel
  induction fuel with
  | zero => intro s c new _; rfl
  | succ n ih =>
    intro s c new hc
    cases s with
    | nil => rfl
    | cons d rest =>
      have hne : ¬ (([c] : List Char) ≠ [] ∧ [c] <+: (d :: rest)) := by
        rintro ⟨-, hp⟩
        rw [List.cons_prefix_cons] at hp
        exact hc (by rw [hp.1]; exact List.mem_cons_self d rest)
      rw [replaceFuel, if_neg hne]
      have hrest : c ∉ rest := fun hm => hc (List.mem_cons_of_mem d hm)
      rw [ih rest c new hrest]

theorem pyReplace_single_not_mem (s : List Char) (c : Char) (new : List Char)
    (hc : c ∉ s) : pyReplace s [c] new = s := by
  rw [pyReplace, if_neg (by simp)]
  exact replaceFuel_single_not_mem s.length s c new hc

theorem editAnswer_of_noPunct (a : List Char) (h : noPunct a) : editAnswer a = a := by
  obtain ⟨h1, h2, h3⟩ := h
  unfold editAnswer
  rw [pyReplace_single_not_mem a _ _ h1, pyReplace_single_not_mem a _ _ h2,
      pyReplace_single_not_mem a _ _ h3]

theorem editLoop_of_noPunct :
    ∀ (answers : List (List Char)) (ctx : List Char),
      (∀ a ∈ answers, noPunct a) → editLoop ctx answers = (ctx, answers) := by
  intro answers
  induction answers with
  | nil => intro ctx _; rfl
  | cons a rest ih =>
    intro ctx h
    have ha : noPunct a := h a (List.mem_cons_self a rest)
    have hr : ∀ b ∈ rest, noPunct b := fun b hb => h b (List.mem_cons_of_mem a hb)
    simp only [editLoop, editAnswer_of_noPunct a ha, pyReplace_self, ih ctx hr]

theorem restoreLoop_zip_self :
    ∀ (l : List (List Char)) (ctx : List Char), restoreLoop ctx (l.zip l) = ctx := by
  intro l
  induction l with
  | nil => intro ctx; rfl
  | cons a rest ih =>
    intro ctx
    simp only [List.zip_cons_cons, restoreLoop, pyReplace_self]
    exact ih ctx

theorem restoredContext_of_noPunct (ctx : List Char) (answers : List (List Char))
    (h : ∀ a ∈ answers, noPunct a) : restoredContext ctx answers = ctx := by
  unfold restoredContext editedContext editedAnswers
  rw [editLoop_of_noPunct answers ctx h]
  exact restoreLoop_zip_self answers ctx

theorem labelsLoop_nodup_sublist (answers : List (List Char)) :
    ∀ (sents acc : List (List Char)), acc.Nodup →
      (labelsLoop answers acc sents).Nodup ∧
      ∃ l, labelsLoop answers acc sents = acc ++ l ∧ List.Sublist l sents := by
  intro sents
  induction sents with
  | nil => intro acc h; exact ⟨h, [], by simp [labelsLoop], List.nil_sublist []⟩
  | cons s rest ih =>
    intro acc hacc
    by_cases hc : (∃ a ∈ answers, a <:+: s) ∧ s ∉ acc
    · rw [labelsLoop, if_pos hc]
      have hacc2 : (acc ++ [s]).Nodup := by
        simp [List.nodup_append, hacc, hc.2]
      obtain ⟨hnd, l, heq, hsub⟩ := ih (acc ++ [s]) hacc2
      refine ⟨hnd, s :: l, ?_, List.Sublist.cons₂ s hsub⟩
      rw [heq, List.append_assoc]
      rfl
    · rw [labelsLoop, if_neg hc]
      obtain ⟨hnd, l, heq, hsub⟩ := ih acc hacc
      exact ⟨hnd, l, heq, List.Sublist.cons s hsub⟩

theorem labelsLoop_mem (answers : List (List Char)) :
    ∀ (sents acc : List (List Char)) (x : List Char),
      x ∈ labelsLoop answers acc sents → x ∈ acc ∨ ∃ a ∈ answers, a <:+: x := by
  intro sents
  induction sents with
  | nil => intro acc x hx; exact Or.inl hx
  | cons s rest ih =>
    intro acc x hx
    by_cases hc : (∃ a ∈ answers, a <:+: s) ∧ s ∉ acc
    · rw [labelsLoop, if_pos hc] at hx
      rcases ih (acc ++ [s]) x hx with h | h
      · rcases List.mem_append.mp h with h2 | h2
        · exact Or.inl h2
        · have hxs : x = s := by simpa using h2
          exact Or.inr (hxs ▸ hc.1)
      · exact Or.inr h
    · rw [labelsLoop, if_neg hc] at hx
      exact ih acc x hx

theorem labelsLoop_erase (answers : List (List Char)) (b : List Char) :
    ∀ (sents acc : List (List Char)), (∀ s ∈ sents, ¬ (b <:+: s)) →
      labelsLoop answers acc sents = labelsLoop (answers.erase b) acc sents := by
  intro sents
  induction sents with
  | nil => intro acc _; rfl
  | cons s rest ih =>
    intro acc h
    have hs : ¬ (b <:+: s) := h s (List.mem_cons_self s rest)
    have hrest : ∀ t ∈ rest, ¬ (b <:+: t) := fun t ht => h t (List.mem_cons_of_mem s ht)
    have hiff : (∃ a ∈ answers, a <:+: s) ↔ (∃ a ∈ answers.erase b, a <:+: s) := by
      constructor
      · rintro ⟨a, ha, hinf⟩
        have hne : a ≠ b := fun he => hs (he ▸ hinf)
        exact ⟨a, (List.mem_erase_of_ne hne).mpr ha, hinf⟩
      · rintro ⟨a, ha, hinf⟩
        exact ⟨a, List.erase_subset b answers ha, hinf⟩
    by_cases hc : (∃ a ∈ answers, a <:+: s) ∧ s ∉ acc
    · rw [labelsLoop, if_pos hc, labelsLoop, if_pos ⟨hiff.mp hc.1, hc.2⟩]
      exact ih (acc ++ [s]) hrest
    · rw [labelsLoop, if_neg hc, labelsLoop, if_neg ?_]
      · exact ih acc hrest
      · rintro ⟨he, hn⟩
        exact hc ⟨hiff.mpr he, hn⟩

theorem strIndex_drop_take :
    ∀ (s sub : List Char) (k : Nat), strIndex s sub = some k →
      (List.drop k s).take sub.length = sub := by
  intro s
  induction s with
  | nil =>
    intro sub k h
    rw [strIndex] at h
    by_cases hp : sub <+: ([] : List Char)
    · rw [if_pos hp] at h
      obtain rfl : (0 : Nat) = k := by simpa using h
      obtain ⟨t, ht⟩ := hp
      have hsub : sub = [] := (List.append_eq_nil.mp ht).1
      simp [hsub]
    · rw [if_neg hp] at h
      cases h
  | cons c rest ih =>
    intro sub k h
    rw [strIndex] at h
    by_cases hp : sub <+: (c :: rest)
    · rw [if_pos hp] at h
      obtain rfl : (0 : Nat) = k := by simpa using h
      obtain ⟨t, ht⟩ := hp
      simp only [List.drop_zero]
      rw [← ht]
      exact List.take_left sub t
    · rw [if_neg hp] at h
      cases hk : strIndex rest sub with
      | none => rw [hk] at h; cases h
      | some k2 =>
        rw [hk] at h
        obtain rfl : k2 + 1 = k := by simpa using h
        rw [List.drop_succ_cons]
        exact ih sub k2 hk

theorem strIndex_min :
    ∀ (s sub : List Char) (k : Nat), strIndex s sub = some k →
      ∀ j, j < k → ¬ (sub <+: List.drop j s) := by
  intro s
  induction s with
  | nil =>
    intro sub k h j hj
    rw [strIndex] at h
    by_cases hp : sub <+: ([] : List Char)
    · rw [if_pos hp] at h
      obtain rfl : (0 : Nat) = k := by simpa using h
      exact absurd hj (Nat.not_lt_zero j)
    · rw [if_neg hp] at h
      cases h
  | cons c rest ih =>
    intro sub k h j hj
    rw [strIndex] at h
    by_cases hp : sub <+: (c :: rest)
    · rw [if_pos hp] at h
      obtain rfl : (0 : Nat) = k := by simpa using h
      exact absurd hj (Nat.not_lt_zero j)
    · rw [if_neg hp] at h
      cases hk : strIndex rest sub with
      | none => rw [hk] at h; cases h
      | some k2 =>
        rw [hk] at h
        obtain rfl : k2 + 1 = k := by simpa using h
        cases j with
        | zero => simpa using hp
        | succ j2 =>
          rw [List.drop_succ_cons]
          exact ih sub k2 hk j2 (Nat.lt_of_succ_lt_succ hj)

theorem labelsLoopIdx_invariant (answers : List (List Char)) (ctx : List Char) :
    ∀ (sents : List (List Char)) (acc ps : List (List Char × Nat)),
      (∀ pr ∈ acc, strIndex ctx pr.1 = some pr.2) →
      labelsLoopIdx answers ctx acc sents = some ps →
      ∀ pr ∈ ps, strIndex ctx pr.1 = some pr.2 := by
  intro sents
  induction sents with
  | nil =>
    intro acc ps hacc h
    rw [labelsLoopIdx] at h
    obtain rfl : acc = ps := by simpa using h
    exact hacc
  | cons s rest ih =>
    intro acc ps hacc h
    rw [labelsLoopIdx] at h
    by_cases hc : (∃ a ∈ answers, a <:+: s) ∧ s ∉ acc.map Prod.fst
    · rw [if_pos hc] at h
      cases hk : strIndex ctx s with
      | none => rw [hk] at h; cases h
      | some k =>
        rw [hk] at h
        refine ih (acc ++ [(s, k)]) ps ?_ h
        intro pr hpr
        rcases List.mem_append.mp hpr with h2 | h2
        · exact hacc pr h2
        · have hpr2 : pr = (s, k) := by simpa using h2
          rw [hpr2]
          exact hk
    · rw [if_neg hc] at h
      exact ih acc ps hacc h

theorem chainAppendAll {α : Type} {R : α → α → Prop} :
    ∀ (l₁ l₂ : List α), List.Chain' R l₁ → List.Chain' R l₂ →
      (∀ x ∈ l₁, ∀ y ∈ l₂, R x y) → List.Chain' R (l₁ ++ l₂)
  | [], _, _, h₂, _ => h₂
  | [x], l₂, _, h₂, hall => by
    cases l₂ with
    | nil => simp
    | cons y l₂' =>
      simp only [List.singleton_append]
      exact List.chain'_cons.mpr
        ⟨hall x (List.mem_singleton_self x) y (List.mem_cons_self y l₂'), h₂⟩
  | x :: y :: l₁', l₂, h₁, h₂, hall => by
    have h₁' := List.chain'_cons.mp h₁
    have hrec := chainAppendAll (y :: l₁') l₂ h₁'.2 h₂
      (fun a ha b hb => hall a (List.mem_cons_of_mem x ha) b hb)
    simp only [List.cons_append] at hrec ⊢
    exact List.chain'_cons.mpr ⟨h₁'.1, hrec⟩

theorem mem_qaExamples {x : Nat × Nat × Nat} {ai pi n : Nat} (h : x ∈ qaExamples ai pi n) :
    x.1 = ai ∧ x.2.1 = pi := by
  unfold qaExamples at h
  obtain ⟨qi, _, rfl⟩ := List.mem_map.mp h
  exact ⟨rfl, rfl⟩

theorem mem_examplesOfParas (x : Nat × Nat × Nat) (ai : Nat) :
    ∀ (ps : List Paragraph) (pi : Nat), x ∈ examplesOfParas ai pi ps →
      x.1 = ai ∧ pi ≤ x.2.1 := by
  intro ps
  induction ps with
  | nil => intro pi h; simp [examplesOfParas] at h
  | cons p rest ih =>
    intro pi h
    rw [examplesOfParas] at h
    rcases List.mem_append.mp h with h2 | h2
    · obtain ⟨h3, h4⟩ := mem_qaExamples h2
      exact ⟨h3, le_of_eq h4.symm⟩
    · obtain ⟨h3, h4⟩ := ih (pi + 1) h2
      exact ⟨h3, le_trans (Nat.le_succ pi) h4⟩

theorem mem_examplesOfArticles (x : Nat × Nat × Nat) :
    ∀ (arts : List Article) (ai : Nat), x ∈ examplesOfArticles ai arts → ai ≤ x.1 := by
  intro arts
  induction arts with
  | nil => intro ai h; simp [examplesOfArticles] at h
  | cons art rest ih =>
    intro ai h
    rw [examplesOfArticles] at h
    rcases List.mem_append.mp h with h2 | h2
    · exact le_of_eq (mem_examplesOfParas x ai art.paragraphs 0 h2).1.symm
    · exact le_trans (Nat.le_succ ai) (ih (ai + 1) h2)

theorem chain_qaExamples (ai pi n : Nat) : List.Chain' lexLt (qaExamples ai pi n) := by
  unfold qaExamples
  rw [List.chain'_map]
  refine List.Chain'.imp ?_ (List.pairwise_lt_range n).chain'
  intro a b hab
  exact Or.inr ⟨rfl, Or.inr ⟨rfl, hab⟩⟩

theorem chain_examplesOfParas (ai : Nat) :
    ∀ (ps : List Paragraph) (pi : Nat), List.Chain' lexLt (examplesOfParas ai pi ps) := by
  intro ps
  induction ps with
  | nil => intro pi; simp [examplesOfParas]
  | cons p rest ih =>
    intro pi
    rw [examplesOfParas]
    refine chainAppendAll _ _ (chain_qaExamples ai pi p.qas.length) (ih (pi + 1)) ?_
    intro x hx y hy
    obtain ⟨hx1, hx2⟩ := mem_qaExamples hx
    obtain ⟨hy1, hy2⟩ := mem_examplesOfParas y ai rest (pi + 1) hy
    exact Or.inr ⟨hx1.trans hy1.symm, Or.inl (by omega)⟩

theorem chain_examplesOfArticles :
    ∀ (arts : List Article) (ai : Nat), List.Chain' lexLt (examplesOfArticles ai arts) := by
  intro arts
  induction arts with
  | nil => intro ai; simp [examplesOfArticles]
  | cons art rest ih =>
    intro ai
    rw [examplesOfArticles]
    refine chainAppendAll _ _ (chain_examplesOfParas ai art.paragraphs 0) (ih (ai + 1)) ?_
    intro x hx y hy
    have hx1 := (mem_examplesOfParas x ai art.paragraphs 0 hx).1
    have hy1 := mem_examplesOfArticles y rest (ai + 1) hy
    exact Or.inl (by omega)

theorem examplesOfParas_length (ai : Nat) :
    ∀ (ps : List Paragraph) (pi : Nat),
      (examplesOfParas ai pi ps).length = paraQuestions ps := by
  intro ps
  induction ps with
  | nil => intro pi; rfl
  | cons p rest ih =>
    intro pi
    simp [examplesOfParas, qaExamples, paraQuestions, ih (pi + 1)]

theorem examplesOfArticles_length :
    ∀ (arts : List Article) (ai : Nat),
      (examplesOfArticles ai arts).length = totalQuestions arts := by
  intro arts
  induction arts with
  | nil => intro ai; rfl
  | cons art rest ih =>
    intro ai
    simp [examplesOfArticles, totalQuestions, examplesOfParas_length, ih (ai + 1)]

theorem paraFlatten_length {α : Type} (f : Article → Paragraph → QA → α) (art : Article) :
    ∀ (ps : List Paragraph), (paraFlatten f art ps).length = paraQuestions ps := by
  intro ps
  induction ps with
  | nil => rfl
  | cons p rest ih => simp [paraFlatten, paraQuestions, ih]

theorem squadFlatten_length {α : Type} (f : Article → Paragraph → QA → α) :
    ∀ (squad : List Article), (squadFlatten f squad).length = totalQuestions squad := by
  intro squad
  induction squad with
  | nil => rfl
  | cons art rest ih => simp [squadFlatten, totalQuestions, paraFlatten_length, ih]

theorem mem_paraFlatten {α : Type} (f : Article → Paragraph → QA → α) (art : Article) :
    ∀ (ps : List Paragraph) (r : α), r ∈ paraFlatten f art ps →
      ∃ p ∈ ps, ∃ qa ∈ p.qas, r = f art p qa := by
  intro ps
  induction ps with
  | nil => intro r h; simp [paraFlatten] at h
  | cons p rest ih =>
    intro r h
    rw [paraFlatten] at h
    rcases List.mem_append.mp h with h2 | h2
    · obtain ⟨qa, hqa, rfl⟩ := List.mem_map.mp h2
      exact ⟨p, List.mem_cons_self p rest, qa, hqa, rfl⟩
    · obtain ⟨p2, hp2, qa, hqa, hr⟩ := ih r h2
      exact ⟨p2, List.mem_cons_of_mem p hp2, qa, hqa, hr⟩

theorem mem_squadFlatten {α : Type} (f : Article → Paragraph → QA → α) :
    ∀ (squad : List Article) (r : α), r ∈ squadFlatten f squad →
      ∃ art ∈ squad, ∃ p ∈ art.paragraphs, ∃ qa ∈ p.qas, r = f art p qa := by
  intro squad
  induction squad with
  | nil => intro r h; simp [squadFlatten] at h
  | cons art rest ih =>
    intro r h
    rw [squadFlatten] at h
    rcases List.mem_append.mp h with h2 | h2
    · obtain ⟨p, hp, qa, hqa, hr⟩ := mem_paraFlatten f art art.paragraphs r h2
      exact ⟨art, List.mem_cons_self art rest, p, hp, qa, hqa, hr⟩
    · obtain ⟨a2, ha2, p, hp, qa, hqa, hr⟩ := ih r h2
      exact ⟨a2, List.mem_cons_of_mem art ha2, p, hp, qa, hqa, hr⟩

theorem labelsLoopIdx_nodup (answers : List (List Char)) (ctx : List Char) :
    ∀ (sents : List (List Char)) (acc ps : List (List Char × Nat)),
      (acc.map Prod.fst).Nodup →
      labelsLoopIdx answers ctx acc sents = some ps →
      (ps.map Prod.fst).Nodup := by
  intro sents
  induction sents with
  | nil =>
    intro acc ps hacc h
    rw [labelsLoopIdx] at h
    obtain rfl : acc = ps := by simpa using h
    exact hacc
  | cons s rest ih =>
    intro acc ps hacc h
    rw [labelsLoopIdx] at h
    by_cases hc : (∃ a ∈ answers, a <:+: s) ∧ s ∉ acc.map Prod.fst
    · rw [if_pos hc] at h
      cases hk : strIndex ctx s with
      | none => rw [hk] at h; cases h
      | some k =>
        rw [hk] at h
        refine ih (acc ++ [(s, k)]) ps ?_ h
        simp [List.nodup_append, hacc, hc.2]
    · rw [if_neg hc] at h
      exact ih acc ps hacc h

/-- Claim C1 counterexample: editing then restoring does not always return
the original context.  For context "ab a.b" and the single answer "a.b",
the edit step rewrites the context to "ab ab", and the restore step turns
both occurrences of the edited answer "ab" into "a.b", producing
"a.b a.b" instead of the original context. -/
theorem c1_round_trip_counterexample :
    restoredContext "ab a.b".toList ["a.b".toList] ≠ "ab a.b".toList := by decide

/-- Claim C1 (amended): when no answer contains '.', '?' or '!', each
edited answer equals the original, so the edit step leaves the context
unchanged and the restore step returns it intact: edit-then-restore is the
identity on the context. -/
theorem c1_round_trip (ctx : List Char) (answers : List (List Char))
    (h : ∀ a ∈ answers, noPunct a) : restoredContext ctx answers = ctx :=
  restoredContext_of_noPunct ctx answers h

/-- Witness for the amended Claim C1 at a concrete input. -/
theorem c1_round_trip_witness :
    restoredContext "Paris is the capital".toList ["Paris".toList] =
      "Paris is the capital".toList :=
  c1_round_trip "Paris is the capital".toList ["Paris".toList] (by decide)

/-- Claim C2 counterexample: for context "a.x b.y", answers
["a.x", "b.y"] and a tokenizer yielding the whole edited context as its
single sentence, the aligner emits two labels ("a.x by" and "a.x b.y",
two partial restorations of the one tokenized sentence), so a tokenized
sentence is not added to the label list at most once. -/
theorem c2_order_counterexample :
    ¬ ((alignLabels "a.x b.y".toList ["a.x".toList, "b.y".toList] tokOne).length ≤
        (tokOne (editedContext "a.x b.y".toList ["a.x".toList, "b.y".toList])).length) := by
  decide

/-- Claim C2 (amended): the emitted labels form a duplicate-free sublist of
the variant sequence, which lists each tokenized sentence's progressively
restored versions (one per answer, in answer-list order) in tokenizer
order; no distinct label string is ever repeated, but a single tokenized
sentence can contribute several labels through its distinct partial
restorations. -/
theorem c2_order (ctx : List Char) (answers : List (List Char))
    (tok : List Char → List (List Char)) :
    List.Sublist (alignLabels ctx answers tok) (alignVariants ctx answers tok) ∧
      (alignLabels ctx answers tok).Nodup := by
  obtain ⟨hnd, l, heq, hsub⟩ :=
    labelsLoop_nodup_sublist answers (alignVariants ctx answers tok) [] List.nodup_nil
  constructor
  · rw [alignLabels, heq]
    simpa using hsub
  · rw [alignLabels]
    exact hnd

/-- Claim C3 counterexample: with context "hello", the single answer
"xyz" and the whole-context tokenizer, the answer occurs in no tokenized
sentence, yet nothing fails: no AlignmentError exists anywhere in the
code, SentenceIndexTeacher's label computation returns normally with an
empty label list, and SentenceTeacher's label list is simply empty. -/
theorem c3_error_counterexample :
    alignIdx "hello".toList ["xyz".toList] tokOne = some [] ∧
      alignLabels "hello".toList ["xyz".toList] tokOne = [] := by decide

/-- Claim C3 (amended): an answer that occurs in no sentence variant is
silently skipped: it contributes no label and raises nothing, and the
labels are exactly those computed from the remaining answers, so the
emitted label list may be shorter than the raw answer list. -/
theorem c3_error_handling (answers : List (List Char)) (b : List Char)
    (sents : List (List Char)) (h : ∀ s ∈ sents, ¬ (b <:+: s)) :
    labelsLoop answers [] sents = labelsLoop (answers.erase b) [] sents :=
  labelsLoop_erase answers b sents [] h

/-- Witness for the amended Claim C3 at a concrete input. -/
theorem c3_error_handling_witness :
    labelsLoop ["xy".toList, "ab".toList] [] ["ab cd".toList] =
      labelsLoop (["xy".toList, "ab".toList].erase "xy".toList) [] ["ab cd".toList] :=
  c3_error_handling ["xy".toList, "ab".toList] "xy".toList ["ab cd".toList] (by decide)

/-- Claim C4: for every label/offset pair emitted by SentenceIndexTeacher,
slicing the restored context at the offset for the length of the label
yields exactly the label text, and the offset is the first occurrence of
the label text in the fully restored context. -/
theorem c4_offsets (ctx : List Char) (answers : List (List Char))
    (tok : List Char → List (List Char)) (ps : List (List Char × Nat))
    (hps : alignIdx ctx answers tok = some ps) (s : List Char) (k : Nat)
    (hmem : (s, k) ∈ ps) :
    (List.drop k (restoredContext ctx answers)).take s.length = s ∧
      ∀ j, j < k → ¬ (s <+: List.drop j (restoredContext ctx answers)) := by
  have hinv := labelsLoopIdx_invariant answers (restoredContext ctx answers)
    (alignVariants ctx answers tok) [] ps
    (fun pr hpr => absurd hpr (List.not_mem_nil pr)) hps (s, k) hmem
  exact ⟨strIndex_drop_take (restoredContext ctx answers) s k hinv,
    strIndex_min (restoredContext ctx answers) s k hinv⟩

/-- Witness for Claim C4 at a concrete input. -/
theorem c4_offsets_witness :
    (List.drop 0 (restoredContext "ab cd".toList ["ab".toList])).take
        ("ab cd".toList).length = "ab cd".toList :=
  (c4_offsets "ab cd".toList ["ab".toList] tokOne [("ab cd".toList, 0)] (by decide)
    "ab cd".toList 0 (by decide)).1

/-- Claim C5: every label emitted by the aligner contains the text of at
least one input answer as a literal contiguous substring. -/
theorem c5_containment (ctx : List Char) (answers : List (List Char))
    (tok : List Char → List (List Char)) (l : List Char)
    (hl : l ∈ alignLabels ctx answers tok) : ∃ a ∈ answers, a <:+: l := by
  rcases labelsLoop_mem answers (alignVariants ctx answers tok) [] l hl with h | h
  · exact absurd h (List.not_mem_nil l)
  · exact h

/-- Witness for Claim C5 at a concrete input. -/
theorem c5_containment_witness :
    ∃ a ∈ ["ab".toList], a <:+: "ab cd".toList :=
  c5_containment "ab cd".toList ["ab".toList] tokOne "ab cd".toList (by decide)

/-- Claim C6 counterexample: SentenceIndexTeacher emits a record whose
text field is built from the edit-then-restored context, not the original
paragraph context: over the paragraph "ab a.b" with answer "a.b" it
emits a record (so a record is produced) whose text differs from
original-context + newline + question. -/
theorem c6_text_counterexample :
    (sentenceIndexGet demoStatePunct tokOne 0).isSome = true ∧
      (sentenceIndexGet demoStatePunct tokOne 0).map SquadAction.text ≠
        some ("ab a.b".toList ++ '\n' :: "q1".toList) := by decide

/-- Claim C6 (amended): IndexTeacher and DefaultTeacher emit text =
original paragraph context + newline + question, OpenSquadTeacher emits
the question alone, and TitleTeacher prepends the article title and a
newline; SentenceIndexTeacher however builds its text from the
edit-then-restored context, which equals the original paragraph context
when no answer contains '.', '?' or '!'. -/
theorem c6_text_fields (st : TeacherState) (i ai pi qi : Nat) (art : Article)
    (p : Paragraph) (qa : QA) (tok : List Char → List (List Char))
    (h1 : st.examples[i]? = some (ai, pi, qi)) (h2 : st.squad[ai]? = some art)
    (h3 : art.paragraphs[pi]? = some p) (h4 : p.qas[qi]? = some qa) :
    (∀ act, indexGet st i = some act → act.text = p.context ++ '\n' :: qa.question) ∧
    (∀ act, sentenceIndexGet st tok i = some act →
        act.text = restoredContext p.context (qa.answers.map Prod.fst)
            ++ '\n' :: qa.question ∧
          ((∀ a ∈ qa.answers.map Prod.fst, noPunct a) →
            act.text = p.context ++ '\n' :: qa.question)) ∧
    (∀ (squad : List Article) (r : List Char × List (List Char)),
        r ∈ defaultSetupData squad →
        ∃ art2 ∈ squad, ∃ p2 ∈ art2.paragraphs, ∃ qa2 ∈ p2.qas,
          r.1 = p2.context ++ '\n' :: qa2.question) ∧
    (∀ (squad : List Article) (r : List Char × List (List Char)),
        r ∈ openSetupData squad →
        ∃ art2 ∈ squad, ∃ p2 ∈ art2.paragraphs, ∃ qa2 ∈ p2.qas, r.1 = qa2.question) ∧
    (∀ (squad : List Article) (r : List Char × List (List Char)),
        r ∈ titleSetupData squad →
        ∃ art2 ∈ squad, ∃ p2 ∈ art2.paragraphs, ∃ qa2 ∈ p2.qas,
          r.1 = art2.title ++ '\n' :: (p2.context ++ '\n' :: qa2.question)) := by
  refine ⟨?_, ?_, ?_, ?_, ?_⟩
  · intro act hact
    simp only [indexGet, h1, h2, h3, h4] at hact
    obtain rfl : _ = act := by simpa using hact
    rfl
  · intro act hact
    simp only [sentenceIndexGet, h1, h2, h3, h4] at hact
    cases hal : alignIdx p.context (qa.answers.map Prod.fst) tok with
    | none => rw [hal] at hact; cases hact
    | some ps =>
      rw [hal] at hact
      obtain rfl : _ = act := by simpa using hact
      refine ⟨rfl, fun hnp => ?_⟩
      show restoredContext p.context (qa.answers.map Prod.fst)
          ++ '\n' :: qa.question = p.context ++ '\n' :: qa.question
      rw [restoredContext_of_noPunct _ _ hnp]
  · intro squad r hr
    obtain ⟨art2, ha, p2, hp, qa2, hq, hr2⟩ := mem_squadFlatten _ squad r hr
    exact ⟨art2, ha, p2, hp, qa2, hq, by rw [hr2]⟩
  · intro squad r hr
    obtain ⟨art2, ha, p2, hp, qa2, hq, hr2⟩ := mem_squadFlatten _ squad r hr
    exact ⟨art2, ha, p2, hp, qa2, hq, by rw [hr2]⟩
  · intro squad r hr
    obtain ⟨art2, ha, p2, hp, qa2, hq, hr2⟩ := mem_squadFlatten _ squad r hr
    exact ⟨art2, ha, p2, hp, qa2, hq, by rw [hr2]⟩

/-- Witness for the amended Claim C6 at a concrete input. -/
theorem c6_text_fields_witness :
    demoIndexAct.text = demoPara.context ++ '\n' :: demoQA.question :=
  (c6_text_fields demoState 0 0 0 0 demoArticle demoPara demoQA tokOne
    (by decide) (by decide) (by decide) (by decide)).1 demoIndexAct (by decide)

/-- Claim C7: the flattener yields exactly one example per question and in
source order (adjacent flat index triples strictly increase in
article-major, paragraph-minor, question-last order), DefaultTeacher's
generator yields exactly one record per question, and a dataset of two
articles with two paragraphs of one question each yields exactly the four
index triples in article-major, paragraph-minor order. -/
theorem c7_flatten_order (squad : List Article) (a1 a2 : Article)
    (h1 : a1.paragraphs.length = 2) (h2 : a2.paragraphs.length = 2)
    (h3 : ∀ p ∈ a1.paragraphs, p.qas.length = 1)
    (h4 : ∀ p ∈ a2.paragraphs, p.qas.length = 1) :
    (setupExamples squad).length = totalQuestions squad ∧
      List.Chain' lexLt (setupExamples squad) ∧
      (defaultSetupData squad).length = totalQuestions squad ∧
      setupExamples [a1, a2] = [(0, 0, 0), (0, 1, 0), (1, 0, 0), (1, 1, 0)] := by
  refine ⟨examplesOfArticles_length squad 0, chain_examplesOfArticles squad 0,
    squadFlatten_length _ squad, ?_⟩
  obtain ⟨p1, p2, hp⟩ := List.length_eq_two.mp h1
  obtain ⟨p3, p4, hq⟩ := List.length_eq_two.mp h2
  have l1 : p1.qas.length = 1 := h3 p1 (by rw [hp]; exact List.mem_cons_self p1 [p2])
  have l2 : p2.qas.length = 1 := h3 p2 (by rw [hp]; simp)
  have l3 : p3.qas.length = 1 := h4 p3 (by rw [hq]; exact List.mem_cons_self p3 [p4])
  have l4 : p4.qas.length = 1 := h4 p4 (by rw [hq]; simp)
  simp [setupExamples, examplesOfArticles, examplesOfParas, qaExamples, hp, hq,
    l1, l2, l3, l4, List.range_succ]

/-- Witness for Claim C7 at a concrete input. -/
theorem c7_flatten_order_witness :
    setupExamples [demoArtA, demoArtB] = [(0, 0, 0), (0, 1, 0), (1, 0, 0), (1, 1, 0)] :=
  (c7_flatten_order [demoArtA, demoArtB] demoArtA demoArtB (by decide) (by decide)
    (by decide) (by decide)).2.2.2

/-- Claim C8: no two labels emitted for the same question have identical
text: the SentenceTeacher label list is duplicate-free, and so is the
SentenceIndexTeacher label list whenever its computation returns at all. -/
theorem c8_nodup (ctx : List Char) (answers : List (List Char))
    (tok : List Char → List (List Char)) :
    (alignLabels ctx answers tok).Nodup ∧
      (((alignIdx ctx answers tok).getD []).map Prod.fst).Nodup := by
  constructor
  · exact (labelsLoop_nodup_sublist answers (alignVariants ctx answers tok) []
      List.nodup_nil).1
  · cases hal : alignIdx ctx answers tok with
    | none => simp
    | some ps =>
      simp only [Option.getD_some]
      exact labelsLoopIdx_nodup answers (restoredContext ctx answers)
        (alignVariants ctx answers tok) [] ps (by simp) hal

/-- Claim C9: SentenceIndexTeacher.get mutates no stored state: the state
after a run equals the state before (in particular the loaded dataset is
unchanged), and running the aligner on question j first does not change
the result for question i. -/
theorem c9_no_side_effects (st : TeacherState) (tok : List Char → List (List Char))
    (i j : Nat) :
    (sentenceIndexGetS st tok i).2 = st ∧
      (sentenceIndexGetS st tok i).2.squad = st.squad ∧
      (sentenceIndexGetS ((sentenceIndexGetS st tok j).2) tok i).1 =
        (sentenceIndexGetS st tok i).1 :=
  ⟨rfl, rfl, rfl⟩

/-- Claim C10: in every record built by IndexTeacher.get the labels and
answer_starts lists have equal length and pair up exactly with the
question's (text, answer_start) pairs; in every record built by
SentenceIndexTeacher.get they have equal length and the i-th start is the
computed first-occurrence index of the i-th label in the restored
context. -/
theorem c10_parallel_lists (st : TeacherState) (i ai pi qi : Nat) (art : Article)
    (p : Paragraph) (qa : QA) (tok : List Char → List (List Char))
    (h1 : st.examples[i]? = some (ai, pi, qi)) (h2 : st.squad[ai]? = some art)
    (h3 : art.paragraphs[pi]? = some p) (h4 : p.qas[qi]? = some qa) :
    (∀ act, indexGet st i = some act →
        act.labels.length = act.answer_starts.length ∧
        act.labels.zip act.answer_starts = qa.answers) ∧
    (∀ act, sentenceIndexGet st tok i = some act →
        act.labels.length = act.answer_starts.length ∧
        ∀ pr ∈ act.labels.zip act.answer_starts,
          strIndex (restoredContext p.context (qa.answers.map Prod.fst)) pr.1 =
            some pr.2) := by
  constructor
  · intro act hact
    simp only [indexGet, h1, h2, h3, h4] at hact
    obtain rfl : _ = act := by simpa using hact
    constructor
    · simp
    · rw [List.zip_map']
      simp
  · intro act hact
    simp only [sentenceIndexGet, h1, h2, h3, h4] at hact
    cases hal : alignIdx p.context (qa.answers.map Prod.fst) tok with
    | none => rw [hal] at hact; cases hact
    | some ps =>
      rw [hal] at hact
      obtain rfl : _ = act := by simpa using hact
      constructor
      · simp
      · intro pr hpr
        rw [List.zip_map'] at hpr
        simp only [List.mem_map] at hpr
        obtain ⟨x, hx, rfl⟩ := hpr
        have hinv := labelsLoopIdx_invariant (qa.answers.map Prod.fst)
          (restoredContext p.context (qa.answers.map Prod.fst))
          (alignVariants p.context (qa.answers.map Prod.fst) tok) [] ps
          (fun pr2 hpr2 => absurd hpr2 (List.not_mem_nil pr2)) hal x hx
        simpa using hinv

/-- Witness for Claim C10 at a concrete input. -/
theorem c10_parallel_lists_witness :
    demoIndexAct.labels.length = demoIndexAct.answer_starts.length :=
  ((c10_parallel_lists demoState 0 0 0 0 demoArticle demoPara demoQA tokOne
    (by decide) (by decide) (by decide) (by decide)).1 demoIndexAct (by decide)).1

end Squad
